import Mathlib

/-!
Verification development for the ByteThisStore/funscript repository.

Part A models the memoization cache engine (`Memoize` / `MemoizeMethod`).
The engine itself (memoize.ts, memoize-decorator.ts) is not part of the
source snapshot — only its test suite is — so the engine is modelled from
the specification (sections 3–7): per-argument key derivation, cache-entry
lifecycle, the two expiration strategies (fixed-delay timer and
external-promise-driven invalidation), and the decorator adapter that
forwards the receiver.

Part B is a shallow embedding of the asynchronous array helpers in
src/src/fun-ar/fun-ar.ts (`FunAr.async.seq.find` via `findIndexSeq`, and
`FunAr.async.parallel.filter`).
-/

namespace Funscript

/-- Modelled from the spec: the Key Codec (§4.1), whose implementation
(memoize.ts) is missing from the snapshot. The spec requires
`deriveKey` to be a pure, deterministic, order-sensitive canonical
encoding of the argument tuple, injective on the structured argument
values it receives; it is therefore modelled as the identity on the
argument-tuple type `κ`. -/
def deriveKey {κ : Type} (args : κ) : κ := args

/-- Modelled from the spec: the opaque handle to the currently-armed
expiration watcher of a cache entry (§3 Cache Entry): none, a timer with
an absolute deadline, or a registration on an external awaitable signal
identified by `sid`. -/
inductive Watcher where
  | none
  | timerAt (deadline : Nat)
  | signal (sid : Nat)
  deriving DecidableEq, Repr

/-- Modelled from the spec: a Cache Entry (§3) — the stored result value
plus the watcher currently armed for it. The key is kept outside, in the
cache mapping. -/
structure CacheEntry (β : Type) where
  value : β
  watcher : Watcher
  deriving DecidableEq, Repr

/-- Modelled from the spec: the `cacheExpiration` configuration (§4.2, §6).
`relative`: `evaluate` produces a delay and is re-sampled once per entry
creation — its impurity is modelled by passing it the ordinal of the
evaluate invocation. `promiseResolution`: `evaluate` produces a fresh
externally-triggerable awaitable on each invocation, modelled by handing
out a fresh signal identifier per invocation. -/
inductive ExpirationPolicy where
  | none
  | relative (evaluate : Nat → Nat)
  | promiseResolution

/-- Modelled from the spec: the state owned by one wrapped callable — the
virtual clock, the mapping from cache key to entry, the number of
invocations of the underlying callable (the observable the tests call
`hitCount`), and the number of expiration-policy `evaluate` invocations
so far (which also serves as the next fresh awaitable signal id). -/
structure MemoState (κ β : Type) where
  time : Nat
  cache : List (κ × CacheEntry β)
  hitCount : Nat
  evalCount : Nat
  deriving DecidableEq, Repr

/-- State of a freshly constructed wrapper: empty cache, no invocations. -/
def initState (κ β : Type) : MemoState κ β := ⟨0, [], 0, 0⟩

/-- Lookup of the first entry stored under key `k` (§4.3 `lookup`). -/
def lookupEntry {κ β : Type} [DecidableEq κ] (k : κ) :
    List (κ × CacheEntry β) → Option (CacheEntry β)
  | [] => Option.none
  | p :: ps => if p.1 = k then some p.2 else lookupEntry k ps

/-- Removal of every entry stored under key `k`; used by `store` to discard
a stale entry under the same key (§4.3 `store`). -/
def eraseKey {κ β : Type} [DecidableEq κ] (k : κ) :
    List (κ × CacheEntry β) → List (κ × CacheEntry β)
  | [] => []
  | p :: ps => if p.1 = k then eraseKey k ps else p :: eraseKey k ps

/-- Lift a pure underlying function into the fallible shape the wrapper
handles (`ε` is the type of thrown errors / rejection reasons). -/
def liftPure (ε : Type) {κ β : Type} (f : κ → β) : κ → Except ε β :=
  fun a => Except.ok (f a)

/-- Modelled from the spec: one invocation of the wrapped callable
(§4.4, §7). Derive the key; on hit return the stored value with no side
effects; on miss invoke the underlying callable: if it fails, propagate
the failure and store nothing; if it succeeds, store the result,
invoking the policy's `evaluate` once to arm the watcher (relative
timers measure their deadline from the creation time). -/
def callStep {κ β ε : Type} [DecidableEq κ] (policy : ExpirationPolicy)
    (f : κ → Except ε β) (s : MemoState κ β) (args : κ) :
    Except ε β × MemoState κ β :=
  let k := deriveKey args
  match lookupEntry k s.cache with
  | some e => (Except.ok e.value, s)
  | Option.none =>
    match f args with
    | Except.error err => (Except.error err, { s with hitCount := s.hitCount + 1 })
    | Except.ok v =>
      match policy with
      | ExpirationPolicy.none =>
          (Except.ok v,
            { s with hitCount := s.hitCount + 1,
                     cache := (k, ⟨v, Watcher.none⟩) :: eraseKey k s.cache })
      | ExpirationPolicy.relative evaluate =>
          (Except.ok v,
            { s with hitCount := s.hitCount + 1,
                     cache := (k, ⟨v, Watcher.timerAt (s.time + evaluate s.evalCount)⟩)
                        :: eraseKey k s.cache,
                     evalCount := s.evalCount + 1 })
      | ExpirationPolicy.promiseResolution =>
          (Except.ok v,
            { s with hitCount := s.hitCount + 1,
                     cache := (k, ⟨v, Watcher.signal s.evalCount⟩) :: eraseKey k s.cache,
                     evalCount := s.evalCount + 1 })

/-- Whether a watcher is a relative timer that has fired by time `t`. -/
def timerFiresBy (t : Nat) : Watcher → Bool
  | Watcher.timerAt deadline => decide (deadline ≤ t)
  | _ => false

/-- Whether a watcher is a registration on the awaitable signal `sid`. -/
def watchesSignal (sid : Nat) : Watcher → Bool
  | Watcher.signal j => decide (j = sid)
  | _ => false

/-- Modelled from the spec: the passage of `d` time units; every relative
timer whose deadline has been reached fires and purges its entry (§4.2). -/
def elapse {κ β : Type} (d : Nat) (s : MemoState κ β) : MemoState κ β :=
  let t := s.time + d
  { s with time := t,
           cache := s.cache.filter (fun p => !(timerFiresBy t p.2.watcher)) }

/-- Modelled from the spec: the awaitable `sid` settles; exactly the entries
whose watcher is registered on it are purged (§4.2). -/
def settle {κ β : Type} (sid : Nat) (s : MemoState κ β) : MemoState κ β :=
  { s with cache := s.cache.filter (fun p => !(watchesSignal sid p.2.watcher)) }

/-- A sequence of invocations of the wrapped callable, one per element of
`argsList`, with no other event in between; returns the list of results
and the final state. -/
def callSeq {κ β ε : Type} [DecidableEq κ] (policy : ExpirationPolicy)
    (f : κ → Except ε β) : List κ → MemoState κ β → List (Except ε β) × MemoState κ β
  | [], s => ([], s)
  | a :: as, s =>
      let r := callStep policy f s a
      let rs := callSeq policy f as r.2
      (r.1 :: rs.1, rs.2)

/-- Calling the wrapped callable `n` times in immediate succession on the
same argument tuple. -/
def callRepeat {κ β ε : Type} [DecidableEq κ] (policy : ExpirationPolicy)
    (f : κ → Except ε β) (a : κ) (n : Nat) (s : MemoState κ β) :
    List (Except ε β) × MemoState κ β :=
  callSeq policy f (List.replicate n a) s

theorem lookupEntry_cons_self {κ β : Type} [DecidableEq κ] (k : κ) (e : CacheEntry β)
    (l : List (κ × CacheEntry β)) : lookupEntry k ((k, e) :: l) = some e := by
  simp [lookupEntry]

theorem callStep_hit {κ β ε : Type} [DecidableEq κ] (policy : ExpirationPolicy)
    (f : κ → Except ε β) (s : MemoState κ β) (a : κ) (e : CacheEntry β)
    (h : lookupEntry (deriveKey a) s.cache = some e) :
    callStep policy f s a = (Except.ok e.value, s) := by
  simp [callStep, h]

theorem callRepeat_succ {κ β ε : Type} [DecidableEq κ] (policy : ExpirationPolicy)
    (f : κ → Except ε β) (a : κ) (n : Nat) (s : MemoState κ β) :
    callRepeat policy f a (n + 1) s
      = ((callStep policy f s a).1
            :: (callRepeat policy f a n (callStep policy f s a).2).1,
         (callRepeat policy f a n (callStep policy f s a).2).2) := rfl

theorem callRepeat_hits {κ β ε : Type} [DecidableEq κ] (policy : ExpirationPolicy)
    (f : κ → Except ε β) (a : κ) (n : Nat) (s : MemoState κ β) (e : CacheEntry β)
    (h : lookupEntry (deriveKey a) s.cache = some e) :
    callRepeat policy f a n s = (List.replicate n (Except.ok e.value), s) := by
  induction n with
  | zero => rfl
  | succ m ih =>
      rw [callRepeat_succ, callStep_hit policy f s a e h]
      simp [ih, List.replicate_succ]

theorem callRepeat_pure_from_single {κ β : Type} [DecidableEq κ] (ε : Type)
    (policy : ExpirationPolicy) (f : κ → β) (a : κ) (m : Nat)
    (s1 : MemoState κ β) (w : Watcher)
    (h1 : callStep policy (liftPure ε f) (initState κ β) a = (Except.ok (f a), s1))
    (hl : lookupEntry (deriveKey a) s1.cache = some ⟨f a, w⟩) :
    (callRepeat policy (liftPure ε f) a (m + 1) (initState κ β)).1
        = List.replicate (m + 1) (Except.ok (f a)) ∧
    (callRepeat policy (liftPure ε f) a (m + 1) (initState κ β)).2.hitCount
        = s1.hitCount := by
  have h2 := callRepeat_hits policy (liftPure ε f) a m s1 ⟨f a, w⟩ hl
  rw [callRepeat_succ, h1]
  refine ⟨?_, ?_⟩ <;> simp [h2, List.replicate_succ]

theorem callRepeat_pure_init {κ β : Type} [DecidableEq κ] (ε : Type)
    (policy : ExpirationPolicy) (f : κ → β) (a : κ) (m : Nat) :
    (callRepeat policy (liftPure ε f) a (m + 1) (initState κ β)).1
        = List.replicate (m + 1) (Except.ok (f a)) ∧
    (callRepeat policy (liftPure ε f) a (m + 1) (initState κ β)).2.hitCount = 1 := by
  cases policy with
  | none =>
      exact callRepeat_pure_from_single ε ExpirationPolicy.none f a m
        ⟨0, [(deriveKey a, ⟨f a, Watcher.none⟩)], 1, 0⟩ Watcher.none rfl
        (lookupEntry_cons_self (deriveKey a) _ _)
  | relative evaluate =>
      exact callRepeat_pure_from_single ε (ExpirationPolicy.relative evaluate) f a m
        ⟨0, [(deriveKey a, ⟨f a, Watcher.timerAt (0 + evaluate 0)⟩)], 1, 1⟩
        (Watcher.timerAt (0 + evaluate 0)) rfl
        (lookupEntry_cons_self (deriveKey a) _ _)
  | promiseResolution =>
      exact callRepeat_pure_from_single ε ExpirationPolicy.promiseResolution f a m
        ⟨0, [(deriveKey a, ⟨f a, Watcher.signal 0⟩)], 1, 1⟩ (Watcher.signal 0) rfl
        (lookupEntry_cons_self (deriveKey a) _ _)

/-- Claim C1: for every pure function f and fixed argument tuple a, calling
the wrapped function on a N>1 times in immediate succession (no expiration
event in between) invokes f exactly once, and every one of the N calls
returns the value f computes on a. -/
theorem memoize_idempotent_hit {κ β : Type} [DecidableEq κ] (ε : Type)
    (policy : ExpirationPolicy) (f : κ → β) (a : κ) (n : Nat) (h : 1 < n) :
    (callRepeat policy (liftPure ε f) a n (initState κ β)).1
        = List.replicate n (Except.ok (f a)) ∧
    (callRepeat policy (liftPure ε f) a n (initState κ β)).2.hitCount = 1 := by
  obtain ⟨m, rfl⟩ : ∃ m, n = m + 1 := ⟨n - 1, by omega⟩
  exact callRepeat_pure_init ε policy f a m

/-- Witness for C1: the basic-scenario test, three calls on input 12 with
the doubling function. -/
theorem memoize_idempotent_hit_witness :
    (1 < 3) ∧
    ((callRepeat ExpirationPolicy.none (liftPure Unit (fun x => x * 2)) 12 3
        (initState Nat Nat)).1 = List.replicate 3 (Except.ok 24) ∧
     (callRepeat ExpirationPolicy.none (liftPure Unit (fun x => x * 2)) 12 3
        (initState Nat Nat)).2.hitCount = 1) :=
  ⟨by decide,
   memoize_idempotent_hit Unit ExpirationPolicy.none (fun x => x * 2) 12 3
     (by decide)⟩

/-- Claim C2: for argument tuples a and b with unequal derived keys, the
call sequence g(a), g(b), g(a) invokes the underlying function exactly
twice (each call returning the right value), and structurally equal
argument tuples always derive equal keys. -/
theorem memoize_key_separation {κ β : Type} [DecidableEq κ] (ε : Type)
    (policy : ExpirationPolicy) (f : κ → β) (a b : κ)
    (h : deriveKey a ≠ deriveKey b) :
    (callSeq policy (liftPure ε f) [a, b, a] (initState κ β)).1
        = [Except.ok (f a), Except.ok (f b), Except.ok (f a)] ∧
    (callSeq policy (liftPure ε f) [a, b, a] (initState κ β)).2.hitCount = 2 ∧
    (∀ x y : κ, x = y → deriveKey x = deriveKey y) := by
  simp only [deriveKey] at h
  refine ⟨?_, ?_, fun x y hxy => by rw [hxy]⟩ <;>
  · cases policy <;>
      simp [callSeq, callStep, liftPure, deriveKey, lookupEntry, eraseKey,
        initState, h, Ne.symm h]

/-- Witness for C2: the multiple-inputs test, inputs 12 and 13 with the
doubling function. -/
theorem memoize_key_separation_witness :
    (deriveKey 12 ≠ deriveKey 13) ∧
    ((callSeq ExpirationPolicy.none (liftPure Unit (fun x => x * 2)) [12, 13, 12]
        (initState Nat Nat)).1
        = [Except.ok 24, Except.ok 26, Except.ok 24] ∧
     (callSeq ExpirationPolicy.none (liftPure Unit (fun x => x * 2)) [12, 13, 12]
        (initState Nat Nat)).2.hitCount = 2 ∧
     (∀ x y : Nat, x = y → deriveKey x = deriveKey y)) :=
  ⟨by decide,
   memoize_key_separation Unit ExpirationPolicy.none (fun x => x * 2) 12 13
     (by decide)⟩

/-- Claim C3: with cacheExpiration of type "relative" whose evaluate yields
100 time units, calling the wrapped function, waiting d ≥ 200 time units
(the armed timer fires and purges the entry), then calling again invokes
the underlying function exactly twice in total, and both calls return the
value the underlying function computes on a. -/
theorem memoize_relative_expiration {κ β : Type} [DecidableEq κ] (ε : Type)
    (f : κ → β) (a : κ) (d : Nat) (h : 200 ≤ d) :
    (callStep (ExpirationPolicy.relative (fun _ => 100)) (liftPure ε f)
        (initState κ β) a).1 = Except.ok (f a) ∧
    (callStep (ExpirationPolicy.relative (fun _ => 100)) (liftPure ε f)
        (elapse d (callStep (ExpirationPolicy.relative (fun _ => 100)) (liftPure ε f)
            (initState κ β) a).2) a).1 = Except.ok (f a) ∧
    (callStep (ExpirationPolicy.relative (fun _ => 100)) (liftPure ε f)
        (elapse d (callStep (ExpirationPolicy.relative (fun _ => 100)) (liftPure ε f)
            (initState κ β) a).2) a).2.hitCount = 2 := by
  have h1 : callStep (ExpirationPolicy.relative (fun _ => 100)) (liftPure ε f)
      (initState κ β) a
      = (Except.ok (f a),
         ⟨0, [(deriveKey a, ⟨f a, Watcher.timerAt (0 + 100)⟩)], 1, 1⟩) := rfl
  have hfire : timerFiresBy d (Watcher.timerAt 100) = true := by
    simp [timerFiresBy]
    omega
  have h2 : elapse d
      (⟨0, [(deriveKey a, ⟨f a, Watcher.timerAt (0 + 100)⟩)], 1, 1⟩ : MemoState κ β)
      = ⟨0 + d, [], 1, 1⟩ := by
    simp [elapse, hfire]
  have hstep2 : callStep (ExpirationPolicy.relative (fun _ => 100)) (liftPure ε f)
      (elapse d (callStep (ExpirationPolicy.relative (fun _ => 100)) (liftPure ε f)
          (initState κ β) a).2) a
      = (Except.ok (f a),
         ⟨0 + d, [(deriveKey a, ⟨f a, Watcher.timerAt ((0 + d) + 100)⟩)], 2, 2⟩) := by
    rw [show (callStep (ExpirationPolicy.relative (fun _ => 100)) (liftPure ε f)
          (initState κ β) a).2
        = (⟨0, [(deriveKey a, ⟨f a, Watcher.timerAt (0 + 100)⟩)], 1, 1⟩ : MemoState κ β)
        from rfl, h2]
    rfl
  exact ⟨by rw [h1], by rw [hstep2], by rw [hstep2]⟩

/-- Witness for C3: doubling function on input 12, delay 100, wait 200. -/
theorem memoize_relative_expiration_witness :
    (200 ≤ 200) ∧
    ((callStep (ExpirationPolicy.relative (fun _ => 100)) (liftPure Unit (fun x => x * 2))
        (initState Nat Nat) 12).1 = Except.ok 24 ∧
     (callStep (ExpirationPolicy.relative (fun _ => 100)) (liftPure Unit (fun x => x * 2))
        (elapse 200 (callStep (ExpirationPolicy.relative (fun _ => 100))
            (liftPure Unit (fun x => x * 2)) (initState Nat Nat) 12).2) 12).1
        = Except.ok 24 ∧
     (callStep (ExpirationPolicy.relative (fun _ => 100)) (liftPure Unit (fun x => x * 2))
        (elapse 200 (callStep (ExpirationPolicy.relative (fun _ => 100))
            (liftPure Unit (fun x => x * 2)) (initState Nat Nat) 12).2) 12).2.hitCount
        = 2) :=
  ⟨by decide,
   memoize_relative_expiration Unit (fun x => x * 2) 12 200 (by decide)⟩

/-- One trigger-then-call round against a promise-resolution wrapper: the
external awaitable `sid` settles (purging exactly the entries registered on
it), then the wrapped function is invoked on `a`. -/
def settleThenCall {κ β ε : Type} [DecidableEq κ] (policy : ExpirationPolicy)
    (f : κ → Except ε β) (sid : Nat) (a : κ) (s : MemoState κ β) :
    Except ε β × MemoState κ β :=
  callStep policy f (settle sid s) a

/-- Claim C4: with a promise-resolution policy whose evaluate hands out a
fresh awaitable on each invocation, an entry is purged exactly when the
awaitable obtained at its creation settles (first conjunct), and three
consecutive settle-then-call rounds on the same argument invoke the
underlying function exactly three times total — once initially (the first
settle precedes any entry and purges nothing) and once per triggered
invalidation of the previously created entry. -/
theorem memoize_promise_expiration {κ β : Type} [DecidableEq κ] (ε : Type)
    (f : κ → β) (a : κ) :
    (∀ (s : MemoState κ β) (sid : Nat) (k : κ) (e : CacheEntry β),
        (k, e) ∈ (settle sid s).cache
          ↔ (k, e) ∈ s.cache ∧ e.watcher ≠ Watcher.signal sid) ∧
    (settleThenCall ExpirationPolicy.promiseResolution (liftPure ε f) 0 a
        (initState κ β)).1 = Except.ok (f a) ∧
    (settleThenCall ExpirationPolicy.promiseResolution (liftPure ε f) 0 a
        (settleThenCall ExpirationPolicy.promiseResolution (liftPure ε f) 0 a
          (initState κ β)).2).1 = Except.ok (f a) ∧
    (settleThenCall ExpirationPolicy.promiseResolution (liftPure ε f) 1 a
        (settleThenCall ExpirationPolicy.promiseResolution (liftPure ε f) 0 a
          (settleThenCall ExpirationPolicy.promiseResolution (liftPure ε f) 0 a
            (initState κ β)).2).2).1 = Except.ok (f a) ∧
    (settleThenCall ExpirationPolicy.promiseResolution (liftPure ε f) 1 a
        (settleThenCall ExpirationPolicy.promiseResolution (liftPure ε f) 0 a
          (settleThenCall ExpirationPolicy.promiseResolution (liftPure ε f) 0 a
            (initState κ β)).2).2).2.hitCount = 3 := by
  refine ⟨fun s sid k e => ?_, rfl, rfl, rfl, rfl⟩
  simp only [settle, List.mem_filter]
  constructor
  · rintro ⟨hm, hp⟩
    refine ⟨hm, ?_⟩
    intro hw
    rw [hw] at hp
    simp [watchesSignal] at hp
  · rintro ⟨hm, hw⟩
    refine ⟨hm, ?_⟩
    cases hwe : e.watcher <;> simp [watchesSignal]
    rename_i j
    intro hj
    exact hw (by rw [hwe, hj])

/-- Modelled from the spec: the Method Decorator Adapter (§4.5) — the
installed method behaves exactly like the Function Wrapper around the
original method body, except that the receiver object at call time is
forwarded to the body unchanged and is not part of the cache key. The
receiver has type σ; the body reads it freely. -/
def decoratedCallStep {σ κ β : Type} [DecidableEq κ] (ε : Type)
    (policy : ExpirationPolicy) (body : σ → κ → β) (recv : σ)
    (s : MemoState κ β) (args : κ) : Except ε β × MemoState κ β :=
  callStep policy (liftPure ε (body recv)) s args

/-- Repeated invocation of a decorated method on one receiver with the same
argument tuple. -/
def decoratedRepeat {σ κ β : Type} [DecidableEq κ] (ε : Type)
    (policy : ExpirationPolicy) (body : σ → κ → β) (recv : σ) (a : κ)
    (n : Nat) (s : MemoState κ β) : List (Except ε β) × MemoState κ β :=
  callRepeat policy (liftPure ε (body recv)) a n s

/-- Claim C5: a method decorated with MemoizeMethod receives the receiver
object unchanged at call time, so the body computes from that instance's
fields; N>1 repeated calls on the same instance with the same arguments
invoke the underlying body exactly once, and every call returns the value
the body computes on that receiver's state. -/
theorem memoizeMethod_receiver_preservation {σ κ β : Type} [DecidableEq κ]
    (ε : Type) (policy : ExpirationPolicy) (body : σ → κ → β) (recv : σ)
    (a : κ) (n : Nat) (h : 1 < n) :
    (decoratedRepeat ε policy body recv a n (initState κ β)).1
        = List.replicate n (Except.ok (body recv a)) ∧
    (decoratedRepeat ε policy body recv a n (initState κ β)).2.hitCount = 1 := by
  obtain ⟨m, rfl⟩ : ∃ m, n = m + 1 := ⟨n - 1, by omega⟩
  exact callRepeat_pure_init ε policy (body recv) a m

/-- Witness for C5: the decorator-with-options test — receiver state is the
offset 18, the body doubles its argument 123 and adds the offset, three
calls yield 264 with a single underlying invocation. -/
theorem memoizeMethod_receiver_preservation_witness :
    (1 < 3) ∧
    ((decoratedRepeat Unit (ExpirationPolicy.relative (fun _ => 1000))
        (fun off x => x * 2 + off) 18 123 3 (initState Nat Nat)).1
        = List.replicate 3 (Except.ok 264) ∧
     (decoratedRepeat Unit (ExpirationPolicy.relative (fun _ => 1000))
        (fun off x => x * 2 + off) 18 123 3 (initState Nat Nat)).2.hitCount = 1) :=
  ⟨by decide,
   memoizeMethod_receiver_preservation Unit (ExpirationPolicy.relative (fun _ => 1000))
     (fun off x => x * 2 + off) 18 123 3 (by decide)⟩

/-- Claim C6: if the underlying callable fails on a cache miss for the key
of a, the wrapper propagates that failure unchanged and the cache is left
untouched (no entry is created: the state changes only by counting the
invocation), so a subsequent call with the same arguments invokes the
underlying callable again and gets the same failure. -/
theorem memoize_failure_not_cached {κ β ε : Type} [DecidableEq κ]
    (policy : ExpirationPolicy) (f : κ → Except ε β) (s : MemoState κ β)
    (a : κ) (err : ε)
    (hmiss : lookupEntry (deriveKey a) s.cache = Option.none)
    (herr : f a = Except.error err) :
    callStep policy f s a
        = (Except.error err, { s with hitCount := s.hitCount + 1 }) ∧
    (callStep policy f (callStep policy f s a).2 a).1 = Except.error err ∧
    (callStep policy f (callStep policy f s a).2 a).2.hitCount = s.hitCount + 2 := by
  have h1 : callStep policy f s a
      = (Except.error err, { s with hitCount := s.hitCount + 1 }) := by
    simp [callStep, hmiss, herr]
  have h2 : callStep policy f ({ s with hitCount := s.hitCount + 1 }) a
      = (Except.error err, { s with hitCount := s.hitCount + 2 }) := by
    simp [callStep, hmiss, herr]
  rw [h1]
  exact ⟨rfl, by rw [h2], by rw [h2]⟩

/-- Witness for C6: a function that always throws, called twice on 0 from a
fresh wrapper: both failures propagate and no entry is ever created. -/
theorem memoize_failure_not_cached_witness :
    (lookupEntry (deriveKey 0) (initState Nat Nat).cache = Option.none) ∧
    ((fun _ : Nat => (Except.error 7 : Except Nat Nat)) 0 = Except.error 7) ∧
    (callStep ExpirationPolicy.none (fun _ : Nat => (Except.error 7 : Except Nat Nat))
        (initState Nat Nat) 0
        = (Except.error 7, { initState Nat Nat with hitCount := 0 + 1 }) ∧
     (callStep ExpirationPolicy.none (fun _ : Nat => (Except.error 7 : Except Nat Nat))
        (callStep ExpirationPolicy.none (fun _ : Nat => (Except.error 7 : Except Nat Nat))
          (initState Nat Nat) 0).2 0).1 = Except.error 7 ∧
     (callStep ExpirationPolicy.none (fun _ : Nat => (Except.error 7 : Except Nat Nat))
        (callStep ExpirationPolicy.none (fun _ : Nat => (Except.error 7 : Except Nat Nat))
          (initState Nat Nat) 0).2 0).2.hitCount = 0 + 2) :=
  ⟨rfl, rfl,
   memoize_failure_not_cached ExpirationPolicy.none
     (fun _ => Except.error 7) (initState Nat Nat) 0 7 rfl rfl⟩

/-- Claim C7: a cache hit returns the stored value and changes nothing at
all — the underlying callable is not invoked and the whole state, the
entry's armed watcher included, is returned unchanged, so a hit never
resets or extends the expiration window; moreover a relative-expiration
entry is armed, at creation, with deadline measured from its creation
time, not from any later access. -/
theorem memoize_hit_frame {κ β ε : Type} [DecidableEq κ]
    (policy : ExpirationPolicy) (f : κ → Except ε β) (s : MemoState κ β)
    (a : κ) (e : CacheEntry β)
    (hhit : lookupEntry (deriveKey a) s.cache = some e)
    (evaluate : Nat → Nat) (g : κ → Except ε β) (s2 : MemoState κ β)
    (b : κ) (v : β)
    (hmiss : lookupEntry (deriveKey b) s2.cache = Option.none)
    (hok : g b = Except.ok v) :
    callStep policy f s a = (Except.ok e.value, s) ∧
    lookupEntry (deriveKey b)
        ((callStep (ExpirationPolicy.relative evaluate) g s2 b).2).cache
      = some ⟨v, Watcher.timerAt (s2.time + evaluate s2.evalCount)⟩ := by
  refine ⟨callStep_hit policy f s a e hhit, ?_⟩
  have hst : callStep (ExpirationPolicy.relative evaluate) g s2 b
      = (Except.ok v,
         { s2 with hitCount := s2.hitCount + 1,
                   cache := (deriveKey b,
                      ⟨v, Watcher.timerAt (s2.time + evaluate s2.evalCount)⟩)
                      :: eraseKey (deriveKey b) s2.cache,
                   evalCount := s2.evalCount + 1 }) := by
    simp [callStep, hmiss, hok]
  rw [hst]
  exact lookupEntry_cons_self (deriveKey b) _ _

/-- Witness for C7: a hit on a one-entry cache whose watcher is a pending
timer, and a miss at time 5 with delay 100 arming a timer for 105. -/
theorem memoize_hit_frame_witness :
    (lookupEntry (deriveKey 4)
        (⟨3, [(4, ⟨8, Watcher.timerAt 50⟩)], 1, 1⟩ : MemoState Nat Nat).cache
        = some ⟨8, Watcher.timerAt 50⟩) ∧
    (lookupEntry (deriveKey 9)
        (⟨5, [], 0, 0⟩ : MemoState Nat Nat).cache = Option.none) ∧
    (liftPure Nat (fun x => x * 2) 9 = Except.ok 18) ∧
    (callStep ExpirationPolicy.none (liftPure Nat (fun x => x * 2))
        (⟨3, [(4, ⟨8, Watcher.timerAt 50⟩)], 1, 1⟩ : MemoState Nat Nat) 4
        = (Except.ok 8, ⟨3, [(4, ⟨8, Watcher.timerAt 50⟩)], 1, 1⟩) ∧
     lookupEntry (deriveKey 9)
        ((callStep (ExpirationPolicy.relative (fun _ => 100))
            (liftPure Nat (fun x => x * 2)) (⟨5, [], 0, 0⟩ : MemoState Nat Nat) 9).2).cache
        = some ⟨18, Watcher.timerAt (5 + 100)⟩) :=
  ⟨by decide, rfl, rfl, by
    have h := memoize_hit_frame ExpirationPolicy.none
      (liftPure Nat (fun x => x * 2))
      (⟨3, [(4, ⟨8, Watcher.timerAt 50⟩)], 1, 1⟩ : MemoState Nat Nat) 4
      ⟨8, Watcher.timerAt 50⟩ (by decide) (fun _ => 100)
      (liftPure Nat (fun x => x * 2)) (⟨5, [], 0, 0⟩ : MemoState Nat Nat) 9 18
      rfl rfl
    exact h⟩

/-- Modelled from the spec: the events a wrapper reacts to over its
lifetime (§5) — invocations of the wrapped callable, passage of time, and
settlement of an external awaitable. -/
inductive MemoEvent (κ : Type) where
  | call (args : κ)
  | elapse (d : Nat)
  | settle (sid : Nat)

/-- Run a sequence of lifetime events against the wrapper state. -/
def runEvents {κ β ε : Type} [DecidableEq κ] (policy : ExpirationPolicy)
    (f : κ → Except ε β) : List (MemoEvent κ) → MemoState κ β → MemoState κ β
  | [], s => s
  | MemoEvent.call a :: es, s => runEvents policy f es (callStep policy f s a).2
  | MemoEvent.elapse d :: es, s => runEvents policy f es (elapse d s)
  | MemoEvent.settle sid :: es, s => runEvents policy f es (settle sid s)

theorem lookupEntry_filter {κ β : Type} [DecidableEq κ] (k : κ)
    (p : κ × CacheEntry β → Bool) (l : List (κ × CacheEntry β))
    (e : CacheEntry β) (hl : lookupEntry k l = some e) (hp : p (k, e) = true) :
    lookupEntry k (l.filter p) = some e := by
  induction l with
  | nil => simp [lookupEntry] at hl
  | cons q t ih =>
      by_cases hq : q.1 = k
      · rw [lookupEntry, if_pos hq] at hl
        have hqe : q = (k, e) := by
          obtain ⟨q1, q2⟩ := q
          simp at hq
          simp at hl
          rw [hq, hl]
        subst hqe
        rw [List.filter_cons, if_pos (by simpa using hp)]
        exact lookupEntry_cons_self k e _
      · rw [lookupEntry, if_neg hq] at hl
        rw [List.filter_cons]
        by_cases hqp : p q = true
        · rw [if_pos (by simpa using hqp), lookupEntry, if_neg hq]
          exact ih hl
        · rw [if_neg (by simpa using hqp)]
          exact ih hl

theorem lookupEntry_eraseKey_ne {κ β : Type} [DecidableEq κ] (k j : κ)
    (hne : j ≠ k) (l : List (κ × CacheEntry β)) :
    lookupEntry k (eraseKey j l) = lookupEntry k l := by
  induction l with
  | nil => rfl
  | cons q t ih =>
      by_cases hq : q.1 = j
      · rw [eraseKey, if_pos hq, ih, lookupEntry, if_neg (by rw [hq]; exact hne)]
      · rw [eraseKey, if_neg hq, lookupEntry, lookupEntry]
        by_cases hk : q.1 = k
        · rw [if_pos hk, if_pos hk]
        · rw [if_neg hk, if_neg hk, ih]

theorem callStep_preserves_entry {κ β ε : Type} [DecidableEq κ]
    (policy : ExpirationPolicy) (f : κ → Except ε β) (s : MemoState κ β)
    (k : κ) (e : CacheEntry β) (hl : lookupEntry k s.cache = some e) (b : κ) :
    lookupEntry k ((callStep policy f s b).2).cache = some e := by
  rw [callStep]
  cases hb : lookupEntry (deriveKey b) s.cache with
  | some eb => simpa using hl
  | none =>
      have hbk : deriveKey b ≠ k := by
        intro hek
        rw [hek, hl] at hb
        exact Option.noConfusion hb
      cases hfb : f b with
      | error err => simpa using hl
      | ok v =>
          cases policy <;>
            simpa [lookupEntry, if_neg hbk, lookupEntry_eraseKey_ne k _ hbk] using hl

theorem passive_preserves_unwatched {κ β : Type} [DecidableEq κ]
    (s : MemoState κ β) (k : κ) (e : CacheEntry β)
    (hw : e.watcher = Watcher.none) (hl : lookupEntry k s.cache = some e) :
    (∀ d, lookupEntry k ((elapse d s).cache) = some e) ∧
    (∀ sid, lookupEntry k ((settle sid s).cache) = some e) := by
  constructor
  · intro d
    exact lookupEntry_filter k _ s.cache e hl (by simp [hw, timerFiresBy])
  · intro sid
    exact lookupEntry_filter k _ s.cache e hl (by simp [hw, watchesSignal])

theorem runEvents_preserves_unwatched {κ β ε : Type} [DecidableEq κ]
    (policy : ExpirationPolicy) (f : κ → Except ε β)
    (evs : List (MemoEvent κ)) (s : MemoState κ β) (k : κ) (e : CacheEntry β)
    (hw : e.watcher = Watcher.none) (hl : lookupEntry k s.cache = some e) :
    lookupEntry k ((runEvents policy f evs s).cache) = some e := by
  induction evs generalizing s with
  | nil => exact hl
  | cons ev t ih =>
      cases ev with
      | call b => exact ih _ (callStep_preserves_entry policy f s k e hl b)
      | elapse d => exact ih _ ((passive_preserves_unwatched s k e hw hl).1 d)
      | settle sid => exact ih _ ((passive_preserves_unwatched s k e hw hl).2 sid)

/-- Claim C8: when no cacheExpiration is configured, a stored entry is
never purged for the lifetime of the wrapper: no lifetime event — a call,
any passage of time, any external settlement — removes it (first
conjunct), and after an arbitrarily long and arbitrary event sequence a
call with the original arguments is still a hit, returning the cached
value and leaving the state unchanged, hence with zero additional
invocations of the underlying function. -/
theorem memoize_no_expiration_persistent {κ β : Type} [DecidableEq κ] (ε : Type)
    (f : κ → β) (a : κ) (evs : List (MemoEvent κ))
    (s : MemoState κ β) (k : κ) (e : CacheEntry β)
    (hw : e.watcher = Watcher.none)
    (hl : lookupEntry k s.cache = some e) :
    lookupEntry k ((runEvents ExpirationPolicy.none (liftPure ε f) evs s).cache)
        = some e ∧
    callStep ExpirationPolicy.none (liftPure ε f)
        (runEvents ExpirationPolicy.none (liftPure ε f) evs
          (callStep ExpirationPolicy.none (liftPure ε f) (initState κ β) a).2) a
      = (Except.ok (f a),
         runEvents ExpirationPolicy.none (liftPure ε f) evs
          (callStep ExpirationPolicy.none (liftPure ε f) (initState κ β) a).2) := by
  refine ⟨runEvents_preserves_unwatched _ _ evs s k e hw hl, ?_⟩
  have h1 : lookupEntry (deriveKey a)
      ((callStep ExpirationPolicy.none (liftPure ε f) (initState κ β) a).2).cache
      = some ⟨f a, Watcher.none⟩ := lookupEntry_cons_self (deriveKey a) _ _
  have h2 := runEvents_preserves_unwatched ExpirationPolicy.none (liftPure ε f)
    evs _ (deriveKey a) ⟨f a, Watcher.none⟩ rfl h1
  exact callStep_hit ExpirationPolicy.none (liftPure ε f) _ a ⟨f a, Watcher.none⟩ h2

/-- Witness for C8: a one-entry unwatched cache survives a long elapse, a
settlement and an unrelated call; the original argument 12 still hits. -/
theorem memoize_no_expiration_persistent_witness :
    ((⟨10, Watcher.none⟩ : CacheEntry Nat).watcher = Watcher.none) ∧
    (lookupEntry 5 (⟨0, [(5, ⟨10, Watcher.none⟩)], 1, 0⟩ : MemoState Nat Nat).cache
        = some ⟨10, Watcher.none⟩) ∧
    (lookupEntry 5 ((runEvents ExpirationPolicy.none (liftPure Unit (fun x => x * 2))
        [MemoEvent.elapse 1000000, MemoEvent.settle 0, MemoEvent.call 99]
        (⟨0, [(5, ⟨10, Watcher.none⟩)], 1, 0⟩ : MemoState Nat Nat)).cache)
        = some ⟨10, Watcher.none⟩ ∧
     callStep ExpirationPolicy.none (liftPure Unit (fun x => x * 2))
        (runEvents ExpirationPolicy.none (liftPure Unit (fun x => x * 2))
          [MemoEvent.elapse 1000000, MemoEvent.settle 0, MemoEvent.call 99]
          (callStep ExpirationPolicy.none (liftPure Unit (fun x => x * 2))
            (initState Nat Nat) 12).2) 12
        = (Except.ok 24,
           runEvents ExpirationPolicy.none (liftPure Unit (fun x => x * 2))
            [MemoEvent.elapse 1000000, MemoEvent.settle 0, MemoEvent.call 99]
            (callStep ExpirationPolicy.none (liftPure Unit (fun x => x * 2))
              (initState Nat Nat) 12).2)) :=
  ⟨rfl, by decide,
   memoize_no_expiration_persistent Unit (fun x => x * 2) 12
     [MemoEvent.elapse 1000000, MemoEvent.settle 0, MemoEvent.call 99]
     (⟨0, [(5, ⟨10, Watcher.none⟩)], 1, 0⟩ : MemoState Nat Nat) 5
     ⟨10, Watcher.none⟩ rfl (by decide)⟩

/-- Shallow embedding of findIndexSeq (src/src/fun-ar/fun-ar.ts, lines
3–17): the loop awaits the callback for one index at a time — passing the
element, the index and the whole array — and stops as soon as a callback
resolves truthy, yielding that index, or -1 when the array is exhausted.
The recursion walks the suffix of the array starting at index i; the
second component instruments the loop with the indices at which the
callback was invoked, in invocation order. -/
def findIndexSeqFrom {α : Type} (callback : α → Nat → List α → Bool)
    (input : List α) : List α → Nat → Int × List Nat
  | [], _ => (-1, [])
  | x :: xs, i =>
      if callback x i input then ((i : Int), [i])
      else
        ((findIndexSeqFrom callback input xs (i + 1)).1,
         i :: (findIndexSeqFrom callback input xs (i + 1)).2)

/-- The result of findIndexSeq: the first index whose callback resolved
truthy, or -1. -/
def findIndexSeq {α : Type} (input : List α)
    (callback : α → Nat → List α → Bool) : Int :=
  (findIndexSeqFrom callback input input 0).1

/-- The indices at which findIndexSeq invoked the callback, in invocation
order. -/
def findIndexSeqCalls {α : Type} (input : List α)
    (callback : α → Nat → List α → Bool) : List Nat :=
  (findIndexSeqFrom callback input input 0).2

/-- Shallow embedding of FunAr.async.seq.find (lines 51–54): run
findIndexSeq; -1 becomes undefined (none), any other index selects the
element of the input at that index. -/
def findSeq {α : Type} (input : List α)
    (callback : α → Nat → List α → Bool) : Option α :=
  let index := findIndexSeq input callback
  if index = -1 then Option.none else input.get? index.toNat

theorem findIndexSeqFrom_none {α : Type} (cb : α → Nat → List α → Bool)
    (input : List α) (l : List α) (i : Nat)
    (h : ∀ j x, l.get? j = some x → cb x (i + j) input = false) :
    findIndexSeqFrom cb input l i = (-1, List.range' i l.length) := by
  induction l generalizing i with
  | nil => rfl
  | cons x xs ih =>
      have hx : cb x i input = false := by simpa using h 0 x rfl
      rw [findIndexSeqFrom, if_neg (by simp [hx])]
      have htail : ∀ j y, xs.get? j = some y → cb y (i + 1 + j) input = false := by
        intro j y hy
        have := h (j + 1) y (by simpa using hy)
        rwa [show i + (j + 1) = i + 1 + j by omega] at this
      rw [ih (i + 1) htail, List.length_cons, List.range'_succ]

theorem findIndexSeqFrom_match {α : Type} (cb : α → Nat → List α → Bool)
    (input : List α) (l : List α) (j : Nat) (x : α) :
    ∀ i, l.get? j = some x → cb x (i + j) input = true →
    (∀ j2 y, j2 < j → l.get? j2 = some y → cb y (i + j2) input = false) →
    findIndexSeqFrom cb input l i = (Int.ofNat (i + j), List.range' i (j + 1)) := by
  induction l generalizing j with
  | nil => intro i hj; simp at hj
  | cons a as ih =>
      intro i hj ht hmin
      cases j with
      | zero =>
          have hax : a = x := by simpa using hj
          subst hax
          rw [findIndexSeqFrom, if_pos (by simpa using ht)]
          simp [List.range'_succ]
      | succ j0 =>
          have ha : cb a (i + 0) input = false := hmin 0 a (Nat.succ_pos j0) rfl
          rw [findIndexSeqFrom, if_neg (by simp [by simpa using ha])]
          have hj' : as.get? j0 = some x := by simpa using hj
          have ht' : cb x (i + 1 + j0) input = true := by
            rwa [show i + (j0 + 1) = i + 1 + j0 by omega] at ht
          have hmin' : ∀ j2 y, j2 < j0 → as.get? j2 = some y →
              cb y (i + 1 + j2) input = false := by
            intro j2 y h2 hy
            have := hmin (j2 + 1) y (by omega) (by simpa using hy)
            rwa [show i + (j2 + 1) = i + 1 + j2 by omega] at this
          rw [ih j0 (i + 1) hj' ht' hmin']
          have h1 : i + 1 + j0 = i + (j0 + 1) := by omega
          simp [List.range'_succ, h1]

/-- Claim C9: FunAr.async.seq.find resolves to the element at the smallest
index whose callback result is truthy — or to undefined when no element
matches — and the callbacks are invoked sequentially in increasing index
order, never for an index past the first truthy result. -/
theorem funAr_seq_find_first_match {α : Type} (input : List α)
    (callback : α → Nat → List α → Bool) :
    (∀ i x, input.get? i = some x → callback x i input = true →
        (∀ j, j < i →
            (input.get? j).all (fun y => !callback y j input) = true) →
        findSeq input callback = some x ∧
        findIndexSeqCalls input callback = List.range (i + 1)) ∧
    ((∀ j, (input.get? j).all (fun y => !callback y j input) = true) →
        findSeq input callback = Option.none ∧
        findIndexSeqCalls input callback = List.range input.length) := by
  constructor
  · intro i x hx ht hmin
    have hmin' : ∀ j2 y, j2 < i → input.get? j2 = some y →
        callback y (0 + j2) input = false := by
      intro j2 y h2 hy
      have := hmin j2 h2
      rw [hy] at this
      simpa using this
    have hmain := findIndexSeqFrom_match callback input input i x 0
      (by simpa using hx) (by simpa using ht) hmin'
    constructor
    · rw [findSeq]
      simp only [findIndexSeq, hmain]
      rw [if_neg (by simp)]
      simpa using hx
    · rw [findIndexSeqCalls, hmain]
      simp [List.range_eq_range']
  · intro h
    have h' : ∀ j x, input.get? j = some x → callback x (0 + j) input = false := by
      intro j x hx
      have := h j
      rw [hx] at this
      simpa using this
    have hmain := findIndexSeqFrom_none callback input input 0 h'
    constructor
    · rw [findSeq]
      simp [findIndexSeq, hmain]
    · rw [findIndexSeqCalls, hmain]
      simp [List.range_eq_range']

/-- Witness for C9: on [5, 8, 9, 4] with the predicate 8 ≤ x, find resolves
to 8 (index 1) and the callback ran exactly on indices 0 and 1. -/
theorem funAr_seq_find_first_match_witness :
    findSeq [5, 8, 9, 4] (fun x _ _ => decide (8 ≤ x)) = some 8 ∧
    findIndexSeqCalls [5, 8, 9, 4] (fun x _ _ => decide (8 ≤ x)) = List.range 2 :=
  (funAr_seq_find_first_match [5, 8, 9, 4] (fun x _ _ => decide (8 ≤ x))).1
    1 8 (by decide) (by decide) (by decide)

/-- Fuel-driven construction of the decimal digit sequence of a natural
number, most significant digit first; the fuel argument keeps the
recursion structural. -/
def decimalDigitsAux : Nat → Nat → List Nat
  | 0, _ => []
  | fuel + 1, n => if n < 10 then [n] else decimalDigitsAux fuel (n / 10) ++ [n % 10]

/-- The decimal digit sequence of a natural number — exactly the character
sequence JavaScript's String(n) produces for the numeric indices collected
by parallel.filter (fuel n + 1 is more than enough: each step divides by
10). -/
def decimalDigits (n : Nat) : List Nat := decimalDigitsAux (n + 1) n

/-- Lexicographic strict comparison of two digit sequences; on the digit
characters 0–9, UTF-16 code-unit order coincides with digit-value order,
and a strict prefix compares smaller, so this is exactly how JavaScript
compares the strings of two numbers. -/
def digitsLt : List Nat → List Nat → Bool
  | [], [] => false
  | [], _ :: _ => true
  | _ :: _, [] => false
  | a :: as, b :: bs => if a < b then true else if b < a then false else digitsLt as bs

/-- Shallow embedding of the comparator applied by Array.prototype.sort
when it is called with no argument, as in parallel.filter's
`filterResults.sort()`: the two numbers are converted to strings and the
strings are compared lexicographically. -/
def jsDefaultLt (a b : Nat) : Bool := digitsLt (decimalDigits a) (decimalDigits b)

/-- Insertion of one element into a list sorted by the default JavaScript
comparator. -/
def jsSortInsert (a : Nat) : List Nat → List Nat
  | [] => [a]
  | b :: bs => if jsDefaultLt a b then a :: b :: bs else b :: jsSortInsert a bs

/-- Sorting by the default JavaScript comparator (insertion sort; distinct
indices have distinct decimal strings, so the comparator is a strict total
order on them and every comparison sort — the engine's included — yields
this one result). -/
def jsSort : List Nat → List Nat
  | [] => []
  | a :: as => jsSortInsert a (jsSort as)

/-- Shallow embedding of FunAr.async.parallel.filter (src/src/fun-ar/
fun-ar.ts, lines 164–188): all callbacks are started at once and each one
that resolves truthy pushes its index into filterResults, so filterResults
holds the matching indices in callback completion order — modelled by the
parameter completionOrder, the order in which the pending callbacks
complete (a permutation of the indices of the input). After Promise.all,
the collected indices are sorted with the argumentless sort and mapped
back to the elements of the input. -/
def parallelFilter {α : Type} (input : List α)
    (callback : α → Nat → List α → Bool) (completionOrder : List Nat) :
    List α :=
  let filterResults := completionOrder.filter
      (fun i => (input.get? i).any (fun x => callback x i input))
  (jsSort filterResults).filterMap (fun i => input.get? i)

/-- Claim C10, evaluated at a failing input: on the 11-element array
[0,…,10] with an always-true predicate and the callbacks completing in
index order, parallel.filter returns the elements in the order
[0,1,10,2,3,4,5,6,7,8,9] — the element at index 10 placed before the one
at index 2 — whereas the order-preserving filter of the same input is
[0,…,10]; the claim fails because `filterResults.sort()` compares the
collected numeric indices as strings. -/
theorem funAr_parallel_filter_order_bug :
    parallelFilter (List.range 11) (fun _ _ _ => true) (List.range 11)
      = [0, 1, 10, 2, 3, 4, 5, 6, 7, 8, 9] ∧
    (List.range 11).filter (fun _ => true) = List.range 11 ∧
    ([0, 1, 10, 2, 3, 4, 5, 6, 7, 8, 9] : List Nat) ≠ List.range 11 := by
  refine ⟨by decide, by decide, by decide⟩

end Funscript
